import Mathlib

/-!
# Verification of the movie-rater core (`movie_rater.py`)

A shallow embedding of the rating/selection engine of the movie-rater
program, together with proofs and refutations of the specification's
claims about it.

Records are modelled as a structure mirroring one row of the source data;
the Elo computation is modelled over the reals (the source uses Python
floats; on every input used in a claim the float computation and the real
computation round identically, and Python's round-half-to-even never meets
an exact half on those inputs, so `round` over ℝ is observationally
faithful there).
-/

open Real

/-- One row of source data (`df_movies` row): the fields the core reads,
plus an opaque remainder that is passed through unchanged. -/
structure MovieRecord where
  Title : String
  director : String
  genres : String
  poster_url : String
  elo : ℤ
  extra : List (String × String) := []
deriving DecidableEq, Repr

/-- A row of the displayed leaderboard: the projection
`[["Title","director","genres","elo"]]` of a record. -/
structure LeaderboardEntry where
  Title : String
  director : String
  genres : String
  elo : ℤ
deriving DecidableEq, Repr

/-- Python's `str.lower()`: lowercase every character. Implemented by
structural recursion on the character list so that concrete instances
evaluate inside the kernel. -/
def str_lower (s : String) : String :=
  String.mk (s.data.map Char.toLower)

/-- Python's `str.strip()`: drop whitespace from both ends. -/
def str_trim (s : String) : String :=
  String.mk (((s.data.dropWhile Char.isWhitespace).reverse.dropWhile Char.isWhitespace).reverse)

/-- Split a character list at every comma; the pieces keep their order
and empty pieces are preserved (`"".split(",") == [""]`). -/
def split_commas_chars : List Char → List (List Char)
  | [] => [[]]
  | c :: cs =>
    if c = ',' then [] :: split_commas_chars cs
    else
      match split_commas_chars cs with
      | [] => [[c]]
      | g :: gs => (c :: g) :: gs

/-- Python's `s.split(",")`. -/
def split_commas (s : String) : List String :=
  (split_commas_chars s.data).map String.mk

/-- `get_genre_set` (source line 59): split the comma-separated genre
string, trim and lowercase each piece, drop empty pieces, return a set. -/
def get_genre_set (s : String) : Finset String :=
  (((split_commas s).map (fun g => str_lower (str_trim g))).filter (fun g => g ≠ "")).toFinset

/-- `update_elo` (source lines 114–118): expected win probability of the
winner, then both ratings moved by `k * (1 - expected)` and rounded. -/
noncomputable def update_elo (winner_elo loser_elo : ℤ) (k : ℝ := 32) : ℤ × ℤ :=
  let expected_win : ℝ :=
    1 / (1 + (10 : ℝ) ^ ((((loser_elo : ℝ) - (winner_elo : ℝ)) / 400) : ℝ))
  let new_winner_elo : ℝ := (winner_elo : ℝ) + k * (1 - expected_win)
  let new_loser_elo : ℝ := (loser_elo : ℝ) - k * (1 - expected_win)
  (round new_winner_elo, round new_loser_elo)

/-- The winner's expected score, as the source computes it. -/
noncomputable def expected_win (winner_elo loser_elo : ℤ) : ℝ :=
  1 / (1 + (10 : ℝ) ^ ((((loser_elo : ℝ) - (winner_elo : ℝ)) / 400) : ℝ))

theorem update_elo_def (w l : ℤ) (k : ℝ) :
    update_elo w l k =
      (round ((w : ℝ) + k * (1 - expected_win w l)),
       round ((l : ℝ) - k * (1 - expected_win w l))) := rfl

theorem expected_win_equal (r : ℤ) : expected_win r r = 1 / 2 := by
  unfold expected_win
  norm_num

theorem update_elo_1500_1500 : update_elo 1500 1500 = (1516, 1484) := by
  rw [update_elo_def, expected_win_equal]
  rw [show (((1500 : ℤ) : ℝ) + 32 * (1 - 1 / 2)) = ((1516 : ℤ) : ℝ) by norm_num]
  rw [show (((1500 : ℤ) : ℝ) - 32 * (1 - 1 / 2)) = ((1484 : ℤ) : ℝ) by norm_num]
  rw [round_intCast, round_intCast]

theorem expected_win_pos (w l : ℤ) : 0 < expected_win w l := by
  unfold expected_win
  have h10 : (0 : ℝ) < (10 : ℝ) ^ ((((l : ℝ) - (w : ℝ)) / 400) : ℝ) :=
    Real.rpow_pos_of_pos (by norm_num) _
  positivity

theorem expected_win_lt_one (w l : ℤ) : expected_win w l < 1 := by
  unfold expected_win
  have h10 : (0 : ℝ) < (10 : ℝ) ^ ((((l : ℝ) - (w : ℝ)) / 400) : ℝ) :=
    Real.rpow_pos_of_pos (by norm_num) _
  rw [div_lt_one (by linarith)]
  linarith

theorem expected_win_le_half (w l : ℤ) (h : w ≤ l) : expected_win w l ≤ 1 / 2 := by
  unfold expected_win
  have h1 : (1 : ℝ) ≤ (10 : ℝ) ^ ((((l : ℝ) - (w : ℝ)) / 400) : ℝ) := by
    apply Real.one_le_rpow (by norm_num)
    have : (0 : ℝ) ≤ (l : ℝ) - (w : ℝ) := by exact_mod_cast sub_nonneg.mpr h
    positivity
  rw [div_le_div_iff₀ (by linarith) (by norm_num)]
  linarith

theorem expected_win_2300_1500 : expected_win 2300 1500 = 100 / 101 := by
  unfold expected_win
  rw [show ((((1500 : ℤ) : ℝ) - ((2300 : ℤ) : ℝ)) / 400) = ((-2 : ℤ) : ℝ) by norm_num]
  rw [Real.rpow_intCast]
  norm_num

theorem update_elo_2300_1500 : update_elo 2300 1500 = (2300, 1500) := by
  have h1 : round (((2300 : ℤ) : ℝ) + 32 * (1 - 100 / 101)) = 2300 := by
    rw [round_eq]
    apply Int.floor_eq_iff.mpr
    constructor <;> norm_num
  have h2 : round (((1500 : ℤ) : ℝ) - 32 * (1 - 100 / 101)) = 1500 := by
    rw [round_eq]
    apply Int.floor_eq_iff.mpr
    constructor <;> norm_num
  rw [update_elo_def, expected_win_2300_1500, h1, h2]

/-- C1: `update_elo` computes the winner's expected score as
`1 / (1 + 10^((loser − winner)/400))` and returns the pair of rounded
updates `(round (w + k·(1−expected)), round (l − k·(1−expected)))`;
with the default `k = 32`, `update_elo 1500 1500 = (1516, 1484)`. -/
theorem update_elo_formula_and_equal_case :
    (∀ w l : ℤ, ∀ k : ℝ, update_elo w l k =
      (round ((w : ℝ) + k * (1 - 1 / (1 + (10 : ℝ) ^ ((((l : ℝ) - (w : ℝ)) / 400) : ℝ)))),
       round ((l : ℝ) - k * (1 - 1 / (1 + (10 : ℝ) ^ ((((l : ℝ) - (w : ℝ)) / 400) : ℝ)))))) ∧
    update_elo 1500 1500 = (1516, 1484) :=
  ⟨fun _ _ _ => rfl, update_elo_1500_1500⟩

/-- C2 counterexample: at ratings (2300, 1500) the winner's expected score
is 100/101 — neither 0 nor 1 — yet `update_elo` leaves both ratings
unchanged, so the winner does not strictly gain and the loser does not
strictly lose. -/
theorem update_elo_not_strict_at_2300_1500 :
    expected_win 2300 1500 ≠ 0 ∧ expected_win 2300 1500 ≠ 1 ∧
    update_elo 2300 1500 = (2300, 1500) ∧
    ¬ (2300 < (update_elo 2300 1500).1 ∧ (update_elo 2300 1500).2 < 1500) := by
  refine ⟨?_, ?_, update_elo_2300_1500, ?_⟩
  · rw [expected_win_2300_1500]; norm_num
  · rw [expected_win_2300_1500]; norm_num
  · rw [update_elo_2300_1500]
    simp

/-- C2 (amended): with k = 32 the winner never loses rating points and the
loser never gains any (`w ≤ new_w` and `new_l ≤ l` for all inputs); the
inequalities are strict whenever the winner's rating does not exceed the
loser's (`w ≤ l`), but a sufficiently large favourite's gain can round to
zero, so strictness does not hold for all pairs with expectation strictly
between 0 and 1. -/
theorem update_elo_monotone (w l : ℤ) :
    w ≤ (update_elo w l).1 ∧ (update_elo w l).2 ≤ l ∧
    (w ≤ l → w < (update_elo w l).1 ∧ (update_elo w l).2 < l) := by
  have h0 : 0 < expected_win w l := expected_win_pos w l
  have h1 : expected_win w l < 1 := expected_win_lt_one w l
  have e1 : (update_elo w l).1 = round ((w : ℝ) + 32 * (1 - expected_win w l)) := by
    rw [update_elo_def]
  have e2 : (update_elo w l).2 = round ((l : ℝ) - 32 * (1 - expected_win w l)) := by
    rw [update_elo_def]
  refine ⟨?_, ?_, fun hwl => ⟨?_, ?_⟩⟩
  · rw [e1, round_eq]
    apply Int.le_floor.mpr
    nlinarith
  · rw [e2, round_eq]
    have h2 : ⌊(l : ℝ) - 32 * (1 - expected_win w l) + 1 / 2⌋ < l + 1 := by
      apply Int.floor_lt.mpr
      push_cast
      nlinarith
    omega
  · have hle : expected_win w l ≤ 1 / 2 := expected_win_le_half w l hwl
    rw [e1, round_eq]
    have h2 : w + 1 ≤ ⌊(w : ℝ) + 32 * (1 - expected_win w l) + 1 / 2⌋ := by
      apply Int.le_floor.mpr
      push_cast
      nlinarith
    omega
  · have hle : expected_win w l ≤ 1 / 2 := expected_win_le_half w l hwl
    rw [e2, round_eq]
    apply Int.floor_lt.mpr
    nlinarith

theorem update_elo_monotone_witness :
    (1500 : ℤ) ≤ 1500 ∧
    1500 < (update_elo 1500 1500).1 ∧ (update_elo 1500 1500).2 < 1500 :=
  ⟨le_refl _, (update_elo_monotone 1500 1500).2.2 (le_refl _)⟩

/-- C3: for every pair of ratings the two updated ratings sum to within
±1 of the original sum (zero-sum up to rounding). -/
theorem update_elo_zero_sum (w l : ℤ) :
    |((update_elo w l).1 + (update_elo w l).2) - (w + l)| ≤ 1 := by
  have hdef := update_elo_def w l 32
  rw [hdef]
  have hx := abs_sub_round ((w : ℝ) + 32 * (1 - expected_win w l))
  have hy := abs_sub_round ((l : ℝ) - 32 * (1 - expected_win w l))
  have key : |((round ((w : ℝ) + 32 * (1 - expected_win w l)) +
        round ((l : ℝ) - 32 * (1 - expected_win w l)) : ℤ) : ℝ) -
        (((w + l : ℤ)) : ℝ)| ≤ 1 := by
    push_cast
    rw [abs_sub_comm] at hx hy
    calc |(round ((w : ℝ) + 32 * (1 - expected_win w l)) : ℝ) +
          (round ((l : ℝ) - 32 * (1 - expected_win w l)) : ℝ) - ((w : ℝ) + (l : ℝ))|
        = |((round ((w : ℝ) + 32 * (1 - expected_win w l)) : ℝ) -
            ((w : ℝ) + 32 * (1 - expected_win w l))) +
           ((round ((l : ℝ) - 32 * (1 - expected_win w l)) : ℝ) -
            ((l : ℝ) - 32 * (1 - expected_win w l)))| := by ring_nf
      _ ≤ |(round ((w : ℝ) + 32 * (1 - expected_win w l)) : ℝ) -
            ((w : ℝ) + 32 * (1 - expected_win w l))| +
          |(round ((l : ℝ) - 32 * (1 - expected_win w l)) : ℝ) -
            ((l : ℝ) - 32 * (1 - expected_win w l))| := abs_add _ _
      _ ≤ 1 / 2 + 1 / 2 := add_le_add hx hy
      _ = 1 := by norm_num
  exact_mod_cast key

/-- In-memory vote propagation (source lines 126–127): first every row
whose lowercased `Title` equals the winner's lowercased title gets the new
winner elo, then every row whose lowercased `Title` equals the loser's
lowercased title gets the new loser elo. Matching is by lowercasing only —
the source does not trim here (rows are trimmed once, at load). -/
def apply_vote (records : List MovieRecord) (winner_title loser_title : String)
    (new_winner_elo new_loser_elo : ℤ) : List MovieRecord :=
  let step1 := records.map (fun r =>
    if str_lower r.Title = str_lower winner_title then { r with elo := new_winner_elo } else r)
  step1.map (fun r =>
    if str_lower r.Title = str_lower loser_title then { r with elo := new_loser_elo } else r)

/-- The vote handler's in-memory effect (source lines 121–127): compute
the new ratings with `update_elo` at the default k and propagate them. -/
noncomputable def vote_step (records : List MovieRecord) (winner loser : MovieRecord) :
    List MovieRecord :=
  apply_vote records winner.Title loser.Title
    (update_elo winner.elo loser.elo).1 (update_elo winner.elo loser.elo).2

/-- The per-record effect of the two sequential passes of `apply_vote`:
a loser-title match wins over a winner-title match because the loser pass
runs second. -/
def vote_update (winner_title loser_title : String) (nw nl : ℤ) (r : MovieRecord) :
    MovieRecord :=
  if str_lower r.Title = str_lower loser_title then { r with elo := nl }
  else if str_lower r.Title = str_lower winner_title then { r with elo := nw }
  else r

theorem vote_update_Title (wT lT : String) (nw nl : ℤ) (r : MovieRecord) :
    (vote_update wT lT nw nl r).Title = r.Title := by
  unfold vote_update
  split_ifs <;> rfl

theorem vote_update_elo (wT lT : String) (nw nl : ℤ) (r : MovieRecord) :
    (vote_update wT lT nw nl r).elo =
      if str_lower r.Title = str_lower lT then nl
      else if str_lower r.Title = str_lower wT then nw
      else r.elo := by
  unfold vote_update
  split_ifs <;> rfl

theorem vote_pass_comp (wT lT : String) (nw nl : ℤ) (r : MovieRecord) :
    (if str_lower ((if str_lower r.Title = str_lower wT then { r with elo := nw } else r) :
          MovieRecord).Title = str_lower lT then
       { (if str_lower r.Title = str_lower wT then { r with elo := nw } else r) with elo := nl }
     else (if str_lower r.Title = str_lower wT then { r with elo := nw } else r)) =
    vote_update wT lT nw nl r := by
  unfold vote_update
  by_cases hw : str_lower r.Title = str_lower wT
  · rw [if_pos hw]
  · rw [if_neg hw]

theorem apply_vote_map (records : List MovieRecord) (wT lT : String) (nw nl : ℤ) :
    apply_vote records wT lT nw nl = records.map (vote_update wT lT nw nl) := by
  unfold apply_vote
  rw [List.map_map]
  congr 1
  funext r
  exact vote_pass_comp wT lT nw nl r

def mx : MovieRecord := ⟨"x", "dx", "action", "", 1500, []⟩

def my : MovieRecord := ⟨"y", "dy", "action", "", 1500, []⟩

def rx_pad : MovieRecord := ⟨" x", "d1", "", "", 1500, []⟩

def rx : MovieRecord := ⟨"x", "d2", "", "", 1500, []⟩

def ry : MovieRecord := ⟨"y", "d3", "", "", 1500, []⟩

def dup1 : MovieRecord := ⟨"x", "d1", "g1", "p1", 1500, []⟩

def dup2 : MovieRecord := ⟨"x", "d2", "g2", "p2", 1500, []⟩

/-- C5 (amended): the vote applicator matches rows by lowercased title
only — it does not trim (titles are trimmed once, at load time, so on
loader output this coincides with trimmed-and-lowercased normalization).
With that normalization, applying a vote preserves the invariant that any
two records with equal lowercased titles carry equal ratings. -/
theorem vote_preserves_rating_uniformity (records : List MovieRecord)
    (winner loser : MovieRecord)
    (hinv : ∀ r1 ∈ records, ∀ r2 ∈ records,
      str_lower r1.Title = str_lower r2.Title → r1.elo = r2.elo) :
    ∀ r1 ∈ vote_step records winner loser, ∀ r2 ∈ vote_step records winner loser,
      str_lower r1.Title = str_lower r2.Title → r1.elo = r2.elo := by
  intro r1' h1 r2' h2 ht
  unfold vote_step at h1 h2
  rw [apply_vote_map] at h1 h2
  obtain ⟨r1, hr1, rfl⟩ := List.mem_map.mp h1
  obtain ⟨r2, hr2, rfl⟩ := List.mem_map.mp h2
  rw [vote_update_Title, vote_update_Title] at ht
  rw [vote_update_elo, vote_update_elo, ht]
  split_ifs
  · rfl
  · rfl
  · exact hinv r1 hr1 r2 hr2 ht

theorem vote_preserves_rating_uniformity_witness :
    (∀ r1 ∈ [mx, my], ∀ r2 ∈ [mx, my],
      str_lower r1.Title = str_lower r2.Title → r1.elo = r2.elo) ∧
    (∀ r1 ∈ vote_step [mx, my] mx my, ∀ r2 ∈ vote_step [mx, my] mx my,
      str_lower r1.Title = str_lower r2.Title → r1.elo = r2.elo) :=
  ⟨by decide, vote_preserves_rating_uniformity [mx, my] mx my (by decide)⟩

/-- C5 counterexample: the vote applicator lowercases but does not trim
when matching, so in a collection holding titles " x" and "x" — equal
after trimming and lowercasing, and initially satisfying the rating
invariant — a vote for the "x" record updates only the untrimmed-matching
rows, leaving two records with equal trimmed-and-lowercased titles but
different ratings. -/
theorem vote_breaks_trimmed_uniformity :
    (∀ r1 ∈ [rx_pad, rx, ry], ∀ r2 ∈ [rx_pad, rx, ry],
      str_lower (str_trim r1.Title) = str_lower (str_trim r2.Title) → r1.elo = r2.elo) ∧
    ¬ (∀ r1 ∈ vote_step [rx_pad, rx, ry] rx ry, ∀ r2 ∈ vote_step [rx_pad, rx, ry] rx ry,
      str_lower (str_trim r1.Title) = str_lower (str_trim r2.Title) → r1.elo = r2.elo) := by
  have hv : vote_step [rx_pad, rx, ry] rx ry =
      [rx_pad, { rx with elo := 1516 }, { ry with elo := 1484 }] := by
    unfold vote_step
    show apply_vote [rx_pad, rx, ry] rx.Title ry.Title
      (update_elo 1500 1500).1 (update_elo 1500 1500).2 = _
    rw [update_elo_1500_1500]
    decide
  constructor
  · decide
  · rw [hv]
    decide

/-- C6 (amended): provided the winner's and loser's lowercased titles
differ, the vote's in-memory effect is exactly: every row matching the
winner's lowercased title gets the new winner rating, every row matching
the loser's gets the new loser rating, and every other row — and every
non-rating field of the matched rows — is unchanged. (Without the proviso
the claim fails: when the two drawn rows share one title, the loser pass
overwrites the winner pass.) -/
theorem vote_step_frame (records : List MovieRecord) (winner loser : MovieRecord)
    (hne : str_lower winner.Title ≠ str_lower loser.Title) :
    vote_step records winner loser = records.map (fun r =>
      if str_lower r.Title = str_lower winner.Title then
        { r with elo := (update_elo winner.elo loser.elo).1 }
      else if str_lower r.Title = str_lower loser.Title then
        { r with elo := (update_elo winner.elo loser.elo).2 }
      else r) := by
  unfold vote_step
  rw [apply_vote_map]
  congr 1
  funext r
  unfold vote_update
  by_cases hl : str_lower r.Title = str_lower loser.Title
  · rw [if_pos hl, if_neg (fun hw => hne (hw.symm.trans hl)), if_pos hl]
  · by_cases hw : str_lower r.Title = str_lower winner.Title
    · rw [if_neg hl, if_pos hw, if_pos hw]
    · rw [if_neg hl, if_neg hw, if_neg hw, if_neg hl]

theorem vote_step_frame_witness :
    str_lower mx.Title ≠ str_lower my.Title ∧
    vote_step [mx, my] mx my = [mx, my].map (fun r =>
      if str_lower r.Title = str_lower mx.Title then
        { r with elo := (update_elo mx.elo my.elo).1 }
      else if str_lower r.Title = str_lower my.Title then
        { r with elo := (update_elo mx.elo my.elo).2 }
      else r) :=
  ⟨by decide, vote_step_frame [mx, my] mx my (by decide)⟩

/-- C6 counterexample: voting between two rows that share the title "x"
(duplicate rows of one entity, a pair the sampler can legitimately
produce): the winner pass writes 1516 to both rows and the loser pass then
overwrites both with 1484, so the rows matching the winner's title end up
not holding the new winner rating. -/
theorem vote_step_same_title_overwrites :
    (update_elo dup1.elo dup2.elo).1 = 1516 ∧
    vote_step [dup1, dup2] dup1 dup2 =
      [{ dup1 with elo := 1484 }, { dup2 with elo := 1484 }] ∧
    ¬ (∀ r ∈ vote_step [dup1, dup2] dup1 dup2,
        str_lower r.Title = str_lower dup1.Title → r.elo = (update_elo dup1.elo dup2.elo).1) := by
  have h1 : update_elo dup1.elo dup2.elo = (1516, 1484) := by
    show update_elo 1500 1500 = (1516, 1484)
    exact update_elo_1500_1500
  have hv : vote_step [dup1, dup2] dup1 dup2 =
      [{ dup1 with elo := 1484 }, { dup2 with elo := 1484 }] := by
    unfold vote_step
    rw [h1]
    decide
  refine ⟨by rw [h1], hv, ?_⟩
  rw [hv, h1]
  decide

/-- Genre overlap acceptance test of the sampler (source line 70):
the two drawn rows' normalized genre sets intersect. -/
def pair_overlaps (p : MovieRecord × MovieRecord) : Prop :=
  (get_genre_set p.1.genres ∩ get_genre_set p.2.genres).Nonempty

instance : DecidablePred pair_overlaps :=
  fun _ => Finset.decidableNonempty

/-- The retry loop of `sample_movie_pair` (source lines 64–73), with the
random draws supplied as an oracle `draw`: draw number `i` is what the
i-th evaluation of `df.sample(2)` produces. `fuel` counts the remaining
attempts; when it runs out the loop falls through to one more fresh,
unconditional draw. -/
def sample_go (draw : ℕ → MovieRecord × MovieRecord) : ℕ → ℕ → MovieRecord × MovieRecord
  | 0, i => draw i
  | fuel + 1, i => if pair_overlaps (draw i) then draw i else sample_go draw fuel (i + 1)

/-- `sample_movie_pair`: up to 50 accepted-or-rejected draws, then the
fallback draw (the 51st). -/
def sample_movie_pair (draw : ℕ → MovieRecord × MovieRecord) : MovieRecord × MovieRecord :=
  sample_go draw 50 0

theorem sample_go_all_fail (draw : ℕ → MovieRecord × MovieRecord) :
    ∀ fuel i, (∀ k < fuel, ¬ pair_overlaps (draw (i + k))) →
      sample_go draw fuel i = draw (i + fuel) := by
  intro fuel
  induction fuel with
  | zero => intro i _; simp [sample_go]
  | succ n ih =>
    intro i h
    have h0 : ¬ pair_overlaps (draw i) := by
      have := h 0 (Nat.succ_pos n)
      simpa using this
    rw [sample_go, if_neg h0, ih (i + 1) (fun k hk => by
      have h1 := h (k + 1) (Nat.succ_lt_succ hk)
      have h2 : i + (k + 1) = i + 1 + k := by omega
      rwa [h2] at h1)]
    congr 1
    omega

theorem sample_go_first_success (draw : ℕ → MovieRecord × MovieRecord) :
    ∀ fuel i j, j < fuel → (∀ k < j, ¬ pair_overlaps (draw (i + k))) →
      pair_overlaps (draw (i + j)) → sample_go draw fuel i = draw (i + j) := by
  intro fuel
  induction fuel with
  | zero => intro i j hj; omega
  | succ n ih =>
    intro i j hj hfail hsucc
    cases j with
    | zero =>
      rw [sample_go]
      simp only [Nat.add_zero] at hsucc
      rw [if_pos hsucc, Nat.add_zero]
    | succ m =>
      have h0 : ¬ pair_overlaps (draw i) := by
        have := hfail 0 (Nat.succ_pos m)
        simpa using this
      rw [sample_go, if_neg h0, ih (i + 1) m (Nat.lt_of_succ_lt_succ hj)
        (fun k hk => by
          have h1 := hfail (k + 1) (Nat.succ_lt_succ hk)
          have h2 : i + (k + 1) = i + 1 + k := by omega
          rwa [h2] at h1)
        (by
          have h3 : i + (m + 1) = i + 1 + m := by omega
          rwa [h3] at hsucc)]
      congr 1
      omega

def sA : MovieRecord := ⟨"sa", "", "action", "", 1500, []⟩

def sB : MovieRecord := ⟨"sb", "", "drama", "", 1500, []⟩

def sC : MovieRecord := ⟨"sc", "", "comedy", "", 1500, []⟩

def sD : MovieRecord := ⟨"sd", "", "horror", "", 1500, []⟩

def sE : MovieRecord := ⟨"se", "", "action,comedy", "", 1500, []⟩

/-- A draw oracle whose first 50 draws are a disjoint-genre pair and whose
51st draw is a different disjoint-genre pair. -/
def draw_disjoint : ℕ → MovieRecord × MovieRecord :=
  fun i => if i < 50 then (sA, sB) else (sC, sD)

/-- A draw oracle that immediately produces an overlapping-genre pair. -/
def draw_overlap : ℕ → MovieRecord × MovieRecord :=
  fun _ => (sA, sE)

/-- C4 (amended): `sample_movie_pair` attempts up to 50 draws and accepts
the first whose normalized genre sets intersect; if none of the 50
attempts succeeds, it performs one additional fresh, unconditional draw
(the 51st) and returns that — not the pair produced by the last of the 50
attempts. -/
theorem sample_movie_pair_spec (draw : ℕ → MovieRecord × MovieRecord) :
    (∀ j, j < 50 → (∀ i < j, ¬ pair_overlaps (draw i)) → pair_overlaps (draw j) →
      sample_movie_pair draw = draw j) ∧
    ((∀ i < 50, ¬ pair_overlaps (draw i)) → sample_movie_pair draw = draw 50) := by
  constructor
  · intro j hj hfail hsucc
    have h := sample_go_first_success draw 50 0 j hj
      (fun k hk => by simpa using hfail k hk) (by simpa using hsucc)
    simpa [sample_movie_pair] using h
  · intro h
    have h2 := sample_go_all_fail draw 50 0 (fun k hk => by simpa using h k hk)
    simpa [sample_movie_pair] using h2

theorem sample_movie_pair_spec_witness :
    (0 : ℕ) < 50 ∧ pair_overlaps (draw_overlap 0) ∧
    sample_movie_pair draw_overlap = draw_overlap 0 :=
  ⟨by decide, by decide,
    (sample_movie_pair_spec draw_overlap).1 0 (by decide)
      (fun i hi => absurd hi (Nat.not_lt_zero i)) (by decide)⟩

/-- C4 counterexample: with 50 disjoint-genre draws followed by a
different 51st draw, the sampler returns the fresh 51st draw, which
differs from the pair produced by the last (50th) of the bounded
attempts — the fallback is a new unconditional draw, not the final
attempted pair. -/
theorem sample_movie_pair_fresh_fallback :
    (∀ i < 50, ¬ pair_overlaps (draw_disjoint i)) ∧
    sample_movie_pair draw_disjoint = draw_disjoint 50 ∧
    draw_disjoint 50 ≠ draw_disjoint 49 := by
  have hno : ∀ i < 50, ¬ pair_overlaps (draw_disjoint i) := by
    intro i hi
    have hd : draw_disjoint i = (sA, sB) := by simp [draw_disjoint, hi]
    rw [hd]
    decide
  refine ⟨hno, ?_, by decide⟩
  have h2 := sample_go_all_fail draw_disjoint 50 0 (fun k hk => by simpa using hno k hk)
  simpa [sample_movie_pair] using h2

/-- Per-row persistence loop (source lines 136–141): walk the sheet's data
rows, numbered from 2; a row whose stripped, lowercased title equals the
winner's gets the new winner elo written, likewise (independently) for the
loser. A failing write raises, which aborts the loop — modelled by the
`Except` monad's short-circuiting bind. -/
def persist_go (winner_title loser_title : String) (nw nl : ℤ)
    (update_cell : ℕ → ℤ → Except String Unit) :
    ℕ → List String → Except String Unit
  | _, [] => Except.ok ()
  | i, row :: rest => do
    if str_lower (str_trim row) = str_lower (str_trim winner_title) then update_cell i nw
    if str_lower (str_trim row) = str_lower (str_trim loser_title) then update_cell i nl
    persist_go winner_title loser_title nw nl update_cell (i + 1) rest

/-- The whole vote handler (source lines 121–145): the in-memory mutation
happens first (lines 126–127); the per-row persistence runs inside a
try/except whose failure is reported via `st.error` — modelled as the
`Except` value returned alongside the already-mutated collection. -/
noncomputable def vote_handler (records : List MovieRecord) (winner loser : MovieRecord)
    (sheet_titles : List String) (update_cell : ℕ → ℤ → Except String Unit) :
    List MovieRecord × Except String Unit :=
  (vote_step records winner loser,
   persist_go winner.Title loser.Title
     (update_elo winner.elo loser.elo).1 (update_elo winner.elo loser.elo).2
     update_cell 2 sheet_titles)

/-- C10: when the per-row persistence step fails, the failure is surfaced
to the caller as a reportable error (never an `ok`), and the in-memory
collection nevertheless holds the fully applied new ratings — the
mutation happened before the persistence attempt and is not rolled
back. -/
theorem vote_handler_persist_failure (records : List MovieRecord)
    (winner loser : MovieRecord) (sheet_titles : List String)
    (update_cell : ℕ → ℤ → Except String Unit) (e : String)
    (hfail : persist_go winner.Title loser.Title
      (update_elo winner.elo loser.elo).1 (update_elo winner.elo loser.elo).2
      update_cell 2 sheet_titles = Except.error e) :
    (vote_handler records winner loser sheet_titles update_cell).2 = Except.error e ∧
    (vote_handler records winner loser sheet_titles update_cell).2 ≠ Except.ok () ∧
    (vote_handler records winner loser sheet_titles update_cell).1 =
      apply_vote records winner.Title loser.Title
        (update_elo winner.elo loser.elo).1 (update_elo winner.elo loser.elo).2 := by
  refine ⟨hfail, ?_, rfl⟩
  show persist_go winner.Title loser.Title
      (update_elo winner.elo loser.elo).1 (update_elo winner.elo loser.elo).2
      update_cell 2 sheet_titles ≠ Except.ok ()
  rw [hfail]
  exact fun h => Except.noConfusion h

/-- A store adapter whose every write fails. -/
def uc_fail : ℕ → ℤ → Except String Unit := fun _ _ => Except.error "boom"

theorem vote_handler_persist_failure_witness :
    (persist_go mx.Title my.Title
      (update_elo mx.elo my.elo).1 (update_elo mx.elo my.elo).2
      uc_fail 2 ["x", "y"] = Except.error "boom") ∧
    (vote_handler [mx, my] mx my ["x", "y"] uc_fail).2 = Except.error "boom" ∧
    (vote_handler [mx, my] mx my ["x", "y"] uc_fail).1 =
      apply_vote [mx, my] mx.Title my.Title
        (update_elo mx.elo my.elo).1 (update_elo mx.elo my.elo).2 := by
  have hfail : persist_go mx.Title my.Title
      (update_elo mx.elo my.elo).1 (update_elo mx.elo my.elo).2
      uc_fail 2 ["x", "y"] = Except.error "boom" := rfl
  have h := vote_handler_persist_failure [mx, my] mx my ["x", "y"] uc_fail "boom" hfail
  exact ⟨hfail, h.1, h.2.2⟩

/-- Whether `needle` is a prefix of `hay`, over character lists. -/
def chars_start : List Char → List Char → Bool
  | [], _ => true
  | _ :: _, [] => false
  | n :: ns, h :: hs => n == h && chars_start ns hs

/-- Whether `needle` occurs as a contiguous substring of `hay`. -/
def chars_contain (needle : List Char) : List Char → Bool
  | [] => chars_start needle []
  | h :: hs => chars_start needle (h :: hs) || chars_contain needle hs

/-- pandas `Series.str.contains(pat, case=False)` for a pattern without
regex metacharacters (the genre tokens of this data): case-insensitive
substring containment. -/
def str_contains_ci (hay pat : String) : Bool :=
  chars_contain (str_lower pat).data (str_lower hay).data

/-- The descending-elo comparison used by `sort_values("elo", ascending=False)`. -/
def elo_ge (a b : MovieRecord) : Prop := b.elo ≤ a.elo

instance : DecidableRel elo_ge :=
  fun a b => inferInstanceAs (Decidable (b.elo ≤ a.elo))

instance : IsTotal MovieRecord elo_ge :=
  ⟨fun a b => le_total b.elo a.elo⟩

instance : IsTrans MovieRecord elo_ge :=
  ⟨fun _ _ _ hab hbc => le_trans hbc hab⟩

def sort_by_elo_desc (l : List MovieRecord) : List MovieRecord :=
  l.insertionSort elo_ge

/-- Lexicographic code-point comparison of character lists: Python's
string `<=`, used for sorted group keys and `sorted()` of genre tokens. -/
def chars_le : List Char → List Char → Bool
  | [], _ => true
  | _ :: _, [] => false
  | a :: as, b :: bs => if a = b then chars_le as bs else decide (a < b)

/-- Python's string ordering, as a relation on `String`. -/
def title_le (s t : String) : Prop := chars_le s.data t.data = true

instance : DecidableRel title_le :=
  fun _ _ => inferInstanceAs (Decidable (_ = true))

/-- pandas `groupby("Title", as_index=False).first()`: one representative
per distinct exact `Title` value (group keys are sorted ascending by the
groupby); `.first()` yields, for each group, its first row in the
collection's current order (the model has no nulls). -/
def group_first (records : List MovieRecord) : List MovieRecord :=
  (((records.map (fun r => r.Title)).dedup).insertionSort title_le).filterMap
    (fun t => records.find? (fun r => r.Title == t))

/-- `leaderboard_df` (source lines 167–180): for the sentinel "Overall"
take all rows, otherwise keep rows whose genre string contains the
selected genre case-insensitively; group by exact title, project the four
display columns, sort by elo descending. -/
def leaderboard_df (records : List MovieRecord) (selected_genre : String) :
    List LeaderboardEntry :=
  if selected_genre = "Overall" then
    (sort_by_elo_desc (group_first records)).map
      (fun r => ⟨r.Title, r.director, r.genres, r.elo⟩)
  else
    (sort_by_elo_desc (group_first (records.filter
      (fun r => str_contains_ci r.genres selected_genre)))).map
      (fun r => ⟨r.Title, r.director, r.genres, r.elo⟩)

theorem mem_sort_by_elo_desc {r : MovieRecord} {l : List MovieRecord} :
    r ∈ sort_by_elo_desc l ↔ r ∈ l :=
  List.mem_insertionSort elo_ge

theorem mem_group_first {r : MovieRecord} {l : List MovieRecord}
    (h : r ∈ group_first l) : r ∈ l := by
  unfold group_first at h
  obtain ⟨t, _, hfind⟩ := List.mem_filterMap.mp h
  exact List.mem_of_find?_eq_some hfind

/-- C7: for every genre filter other than "Overall" that matches at least
one record, every entry of the filtered leaderboard has a genre string
containing the filter as a case-insensitive substring. -/
theorem leaderboard_filter_sound (records : List MovieRecord) (g : String)
    (hg : g ≠ "Overall") (_hmatch : ∃ r ∈ records, str_contains_ci r.genres g) :
    ∀ e ∈ leaderboard_df records g, str_contains_ci e.genres g := by
  intro e he
  unfold leaderboard_df at he
  rw [if_neg hg] at he
  obtain ⟨r, hr, rfl⟩ := List.mem_map.mp he
  have hr2 : r ∈ group_first (records.filter (fun r => str_contains_ci r.genres g)) :=
    mem_sort_by_elo_desc.mp hr
  have hr3 : r ∈ records.filter (fun r => str_contains_ci r.genres g) :=
    mem_group_first hr2
  exact (List.mem_filter.mp hr3).2

theorem leaderboard_filter_sound_witness :
    ("action" ≠ "Overall") ∧ (∃ r ∈ [mx, my], str_contains_ci r.genres "action") ∧
    ∀ e ∈ leaderboard_df [mx, my] "action", str_contains_ci e.genres "action" :=
  ⟨by decide, ⟨mx, by decide, by decide⟩,
    leaderboard_filter_sound [mx, my] "action" (by decide) ⟨mx, by decide, by decide⟩⟩

theorem filterMap_find_map_Title (records : List MovieRecord) (ts : List String)
    (h : ∀ t ∈ ts, ∃ r ∈ records, r.Title = t) :
    (ts.filterMap (fun t => records.find? (fun r => r.Title == t))).map
      (fun r => r.Title) = ts := by
  induction ts with
  | nil => rfl
  | cons t ts ih =>
    obtain ⟨r, hr, hrt⟩ := h t (List.mem_cons_self t ts)
    have hsome : (records.find? (fun r0 => r0.Title == t)).isSome :=
      List.find?_isSome.mpr ⟨r, hr, by simp [hrt]⟩
    obtain ⟨r0, hr0⟩ := Option.isSome_iff_exists.mp hsome
    have hr0t : r0.Title = t := by
      have h2 := List.find?_some hr0
      simpa using h2
    rw [List.filterMap_cons_some (f := fun t => records.find? (fun r => r.Title == t)) hr0,
      List.map_cons, hr0t, ih (fun t' ht' => h t' (List.mem_cons_of_mem _ ht'))]

/-- C8 (amended): the leaderboard groups records by the exact `Title`
string — not case-insensitively: the "Overall" leaderboard carries
exactly one entry per distinct exact title (its entry titles are a
permutation of the deduplicated title list), and each entry is the
projection of the first-encountered row bearing that exact title. Rows
whose titles differ in letter case remain separate entities (surrounding
whitespace cannot differ because the loader trims titles). -/
theorem leaderboard_groups_by_exact_title (records : List MovieRecord) :
    ((leaderboard_df records "Overall").map (fun e => e.Title)).Perm
      ((records.map (fun r => r.Title)).dedup) ∧
    ∀ e ∈ leaderboard_df records "Overall",
      ∃ r, records.find? (fun r0 => r0.Title == e.Title) = some r ∧
        e = ⟨r.Title, r.director, r.genres, r.elo⟩ := by
  have hboard : leaderboard_df records "Overall" =
      (sort_by_elo_desc (group_first records)).map
        (fun r => ⟨r.Title, r.director, r.genres, r.elo⟩) := by
    unfold leaderboard_df
    rw [if_pos rfl]
  have h3 : (group_first records).map (fun r => r.Title) =
      ((records.map (fun r => r.Title)).dedup).insertionSort title_le := by
    unfold group_first
    apply filterMap_find_map_Title
    intro t ht
    have ht2 : t ∈ (records.map (fun r => r.Title)).dedup :=
      (List.mem_insertionSort _).mp ht
    obtain ⟨r, hr, hrt⟩ := List.mem_map.mp (List.mem_dedup.mp ht2)
    exact ⟨r, hr, hrt⟩
  constructor
  · rw [hboard, List.map_map]
    show ((sort_by_elo_desc (group_first records)).map (fun r => r.Title)).Perm _
    have h1 : (sort_by_elo_desc (group_first records)).Perm (group_first records) :=
      List.perm_insertionSort elo_ge _
    refine (h1.map (fun r => r.Title)).trans ?_
    rw [h3]
    exact List.perm_insertionSort _ _
  · intro e he
    rw [hboard] at he
    obtain ⟨r, hr, rfl⟩ := List.mem_map.mp he
    have hr2 : r ∈ group_first records := mem_sort_by_elo_desc.mp hr
    unfold group_first at hr2
    obtain ⟨t, _, hfind⟩ := List.mem_filterMap.mp hr2
    have hrt : r.Title = t := by
      have h2 := List.find?_some hfind
      simpa using h2
    refine ⟨r, ?_, rfl⟩
    show records.find? (fun r0 => r0.Title == r.Title) = some r
    rw [hrt]
    exact hfind

theorem leaderboard_groups_by_exact_title_witness :
    ((leaderboard_df [mx, my] "Overall").map (fun e => e.Title)).Perm
      (([mx, my].map (fun r => r.Title)).dedup) ∧
    ∀ e ∈ leaderboard_df [mx, my] "Overall",
      ∃ r, [mx, my].find? (fun r0 => r0.Title == e.Title) = some r ∧
        e = ⟨r.Title, r.director, r.genres, r.elo⟩ :=
  leaderboard_groups_by_exact_title [mx, my]

def cX : MovieRecord := ⟨"X", "d1", "g", "", 1500, []⟩

def cx2 : MovieRecord := ⟨"x", "d2", "g", "", 1600, []⟩

/-- C8 counterexample: two rows whose titles "X" and "x" differ only in
letter case do not collapse into one entity — the "Overall" leaderboard
built from them has two entries, because pandas `groupby("Title")` groups
by the exact string. -/
theorem leaderboard_case_sensitive_grouping :
    str_lower cX.Title = str_lower cx2.Title ∧ cX.Title ≠ cx2.Title ∧
    (leaderboard_df [cX, cx2] "Overall").length = 2 := by
  refine ⟨by decide, by decide, ?_⟩
  decide

/-- The distinct genre tokens of `get_top_movies_by_genre` (source line
187): every comma piece of every record's genre string, stripped — but
not lowercased — deduplicated and sorted ascending. -/
def genre_tokens (records : List MovieRecord) : List String :=
  (((records.map (fun r => (split_commas r.genres).map str_trim)).flatten).dedup).insertionSort
    title_le

/-- `get_top_movies_by_genre` (source lines 185–197): for each distinct
token, keep the rows whose genre string contains it case-insensitively,
group by exact title taking the first-encountered representative, sort by
elo descending and emit the top row; tokens with no matching row are
skipped. -/
def get_top_movies_by_genre (records : List MovieRecord) : List (String × MovieRecord) :=
  (genre_tokens records).filterMap (fun g =>
    match sort_by_elo_desc (group_first (records.filter
      (fun r => str_contains_ci r.genres g))) with
    | [] => none
    | top :: _ => some (g, top))

def gA : MovieRecord := ⟨"A", "", "Action,Drama", "", 1500, []⟩

def gB : MovieRecord := ⟨"B", "", "Action", "", 1600, []⟩

def gC : MovieRecord := ⟨"C", "", "Comedy", "", 1700, []⟩

/-- C9 (amended): every emitted pair of `get_top_movies_by_genre` carries
a genre token of the collection (trimmed but case-preserved) together
with an entity of the token's case-insensitively filtered, title-grouped
sub-collection whose rating is maximal in that sub-collection; on the
A/B/C example it yields exactly ("Action", B), ("Comedy", C),
("Drama", A) — capitalized tokens, in sorted order. -/
theorem top_by_genre_spec :
    (∀ records : List MovieRecord, ∀ p ∈ get_top_movies_by_genre records,
      p.1 ∈ genre_tokens records ∧
      p.2 ∈ group_first (records.filter (fun r => str_contains_ci r.genres p.1)) ∧
      str_contains_ci p.2.genres p.1 ∧
      ∀ r ∈ group_first (records.filter (fun r => str_contains_ci r.genres p.1)),
        r.elo ≤ p.2.elo) ∧
    get_top_movies_by_genre [gA, gB, gC] =
      [("Action", gB), ("Comedy", gC), ("Drama", gA)] := by
  constructor
  · intro records p hp
    unfold get_top_movies_by_genre at hp
    obtain ⟨g, hg, hmatch⟩ := List.mem_filterMap.mp hp
    rcases hsort : sort_by_elo_desc (group_first (records.filter
        (fun r => str_contains_ci r.genres g))) with _ | ⟨top, rest⟩
    · rw [hsort] at hmatch
      exact absurd hmatch (by simp)
    · rw [hsort] at hmatch
      simp only [Option.some.injEq] at hmatch
      obtain rfl := hmatch.symm
      have htop : top ∈ group_first (records.filter
          (fun r => str_contains_ci r.genres g)) := by
        have : top ∈ sort_by_elo_desc (group_first (records.filter
            (fun r => str_contains_ci r.genres g))) := by
          rw [hsort]; exact List.mem_cons_self top rest
        exact mem_sort_by_elo_desc.mp this
      refine ⟨hg, htop, ?_, ?_⟩
      · have h2 : top ∈ records.filter (fun r => str_contains_ci r.genres g) :=
          mem_group_first htop
        exact (List.mem_filter.mp h2).2
      · intro r hr
        have hsorted : List.Sorted elo_ge (sort_by_elo_desc (group_first
            (records.filter (fun r => str_contains_ci r.genres g)))) :=
          List.sorted_insertionSort elo_ge _
        rw [hsort] at hsorted
        have hr2 : r ∈ sort_by_elo_desc (group_first (records.filter
            (fun r => str_contains_ci r.genres g))) := mem_sort_by_elo_desc.mpr hr
        rw [hsort] at hr2
        rcases List.mem_cons.mp hr2 with rfl | hr3
        · exact le_refl _
        · exact List.rel_of_sorted_cons hsorted r hr3
  · decide

theorem top_by_genre_spec_witness :
    ("Action", gB) ∈ get_top_movies_by_genre [gA, gB, gC] ∧
    ("Action" : String) ∈ genre_tokens [gA, gB, gC] ∧
    str_contains_ci gB.genres "Action" ∧
    ∀ r ∈ group_first ([gA, gB, gC].filter (fun r => str_contains_ci r.genres "Action")),
      r.elo ≤ gB.elo := by
  have h := top_by_genre_spec.1 [gA, gB, gC] ("Action", gB) (by decide)
  exact ⟨by decide, h.1, h.2.2.1, h.2.2.2⟩

/-- C9 counterexample: the source strips genre tokens but does not
lowercase them (line 187 has no `.lower()`), so on the A/B/C example the
emitted tokens are "Action", "Comedy", "Drama" — the claimed output
("action", B), ("comedy", C), ("drama", A) with lowercased tokens is not
produced. -/
theorem top_by_genre_tokens_not_lowercased :
    get_top_movies_by_genre [gA, gB, gC] =
      [("Action", gB), ("Comedy", gC), ("Drama", gA)] ∧
    get_top_movies_by_genre [gA, gB, gC] ≠
      [("action", gB), ("comedy", gC), ("drama", gA)] := by
  constructor
  · decide
  · decide
